import Mathlib

/-!
Verification of the Reddit-analytics function library
(`library_functions.py` / `Project_03.py`).

The Python source is shallowly embedded below.  Strings are modelled by
Lean `String` (lists of characters); Python `int` by `Int`; Python
`float` results that the code produces from exact integer arithmetic by
`ℚ` (plus an explicit `inf` constructor where the code produces
`float("inf")`); dynamically typed arguments by the `PyVal` type;
raised exceptions by `Except`.  Character-class tests (`\w`, `\d`,
`\s`, `str.lower`) are modelled on the ASCII fragment, which is the
fragment the library's own keyword tables and date strings live in.
-/

/-- ASCII whitespace characters recognised by Python's `\s` and `str.strip()`. -/
def isSpaceChar (c : Char) : Bool :=
  c = ' ' || c = '\t' || c = '\n' || c = '\x0d' || c = '\x0b' || c = '\x0c'

/-- Python's `\w` word-character class (ASCII fragment): letters, digits, underscore. -/
def isWordChar (c : Char) : Bool :=
  c.isAlphanum || c = '_'

/-- `re.sub(r"[^\w\s]", " ", ·)` applied to one character: any character that is
neither a word character nor whitespace becomes a space. -/
def substChar (c : Char) : Char :=
  if isWordChar c || isSpaceChar c then c else ' '

/-- `re.sub(r"\s+", " ", ·)`: every maximal run of whitespace becomes a single
space.  The boolean flag records whether the previous character was whitespace
(in which case further whitespace of the same run is dropped). -/
def collapseSpaces : Bool → List Char → List Char
  | _, [] => []
  | prevWs, c :: rest =>
    if isSpaceChar c then
      if prevWs then collapseSpaces true rest
      else ' ' :: collapseSpaces true rest
    else c :: collapseSpaces false rest

/-- `str.strip()` on the left end only. -/
def stripLeft (s : List Char) : List Char :=
  s.dropWhile isSpaceChar

/-- The cleaning pipeline of `RedditPost.clean_text` applied to the combined
`title + " " + body` character list: lowercase, replace `[^\w\s]` by a space,
collapse whitespace runs, strip both ends. -/
def cleanChars (s : List Char) : List Char :=
  let lowered := s.map Char.toLower
  let substituted := lowered.map substChar
  let collapsed := collapseSpaces false substituted
  stripLeft (stripLeft collapsed.reverse).reverse

/-- A `RedditPost` after successful construction.  `cleaned_cache` models the
`_cleaned_text` memoisation field, which `__init__` sets to `None`. -/
structure RedditPost where
  title : String
  body : String
  score : Int
  num_comments : Int
  created_utc : Int
  cleaned_cache : Option String
  deriving DecidableEq, Repr

/-- The state of a `RedditPost` right after `__init__`: raw fields stored,
`_cleaned_text = None`. -/
def RedditPost.make (title body : String) (score num_comments created_utc : Int) :
    RedditPost :=
  ⟨title, body, score, num_comments, created_utc, none⟩

/-- `RedditPost.clean_text`: returns the cached cleaned text if present,
otherwise cleans `f"{title} {body}"`, stores it in the cache and returns it.
The returned pair is (returned string, post after the call). -/
def RedditPost.clean_text (p : RedditPost) : String × RedditPost :=
  match p.cleaned_cache with
  | some s => (s, p)
  | none =>
    let combined := p.title ++ " " ++ p.body
    let cleaned : String := ⟨cleanChars combined.data⟩
    (cleaned, { p with cleaned_cache := some cleaned })

/-- Python's `round`: banker's rounding (round half to even), the rounding mode
of `round()` on floats. -/
def roundHalfEven (q : ℚ) : Int :=
  let f := ⌊q⌋
  let r := q - f
  if r < 1/2 then f
  else if 1/2 < r then f + 1
  else if f % 2 = 0 then f else f + 1

/-- `RedditPost.engagement_score(w_upvote, w_comment)`:
`int(round(score * w_upvote + num_comments * w_comment))`.
In the source the weights default to `(1.0, 2.0)`; call sites below pass the
defaults explicitly. -/
def RedditPost.engagement_score (p : RedditPost) (w_upvote w_comment : ℚ) : Int :=
  roundHalfEven ((p.score : ℚ) * w_upvote + (p.num_comments : ℚ) * w_comment)

/-- `SponsoredPost.engagement_score` (Project_03): same combination formula via
`super()`, but with default weights `(1, 3)` instead of `(1, 2)`. -/
def SponsoredPost.engagement_score (p : RedditPost) (w_upvote w_comment : ℚ) : Int :=
  RedditPost.engagement_score p w_upvote w_comment

/-! ### Dynamically typed arguments and Python exceptions -/

/-- Python exception kinds raised by the library: `ValueError` (the library's
validation error) and `AttributeError` (raised by attribute access such as
`(1).lower()`). -/
inductive PyErr where
  | valueError (msg : String)
  | attributeError (msg : String)
  deriving DecidableEq, Repr

/-- A dynamically typed Python value, restricted to the types the library's
validation code distinguishes.  `bool` is kept separate from `int` because the
source explicitly tests `isinstance(x, bool)`; note that in Python
`isinstance(b, int)` is `True` for booleans. -/
inductive PyVal where
  | int (n : Int)
  | bool (b : Bool)
  | str (s : String)
  | pyNone
  | list (xs : List PyVal)

/-- Python truthiness for the values of `PyVal`. -/
def pyTruthy : PyVal → Bool
  | .int n => n ≠ 0
  | .bool b => b
  | .str s => s ≠ ""
  | .pyNone => false
  | .list xs => !xs.isEmpty

/-- `isinstance(v, str)`. -/
def isStr : PyVal → Bool
  | .str _ => true
  | _ => false

/-- `isinstance(v, int)` — `True` for booleans as well, since Python's `bool`
is a subclass of `int`. -/
def isInstInt : PyVal → Bool
  | .int _ => true
  | .bool _ => true
  | _ => false

/-- `isinstance(v, bool)`. -/
def isBool : PyVal → Bool
  | .bool _ => true
  | _ => false

/-- The integer value of a `PyVal` known to satisfy `isinstance(·, int)`
(Python booleans behave as `0`/`1` in integer contexts). -/
def asInt : PyVal → Int
  | .int n => n
  | .bool b => if b then 1 else 0
  | _ => 0

/-- The string payload of a `PyVal` known to satisfy `isinstance(·, str)`. -/
def asStr : PyVal → String
  | .str s => s
  | _ => ""

/-- `RedditPost.__init__(title, body, score, num_comments, created_utc)` with
dynamically typed arguments; `Except.error` models a raised `ValueError`.
The checks are, in source order:
`if not title or not isinstance(title, str)`, `if body is None: body = ""`,
`if not isinstance(score, int) or isinstance(score, bool)`,
`if not isinstance(num_comments, int) or isinstance(num_comments, bool)`,
`if not isinstance(created_utc, int) or created_utc < 0`.
On success the stored body is the string payload (the claims below only
concern which inputs raise, never the stored value of a non-string body). -/
def RedditPost.init (title body score num_comments created_utc : PyVal) :
    Except PyErr RedditPost :=
  if !pyTruthy title || !isStr title then
    .error (.valueError "title must be a non-empty string")
  else
    let body' := match body with
      | .pyNone => ""
      | b => asStr b
    if !isInstInt score || isBool score then
      .error (.valueError "score must be an int")
    else if !isInstInt num_comments || isBool num_comments then
      .error (.valueError "num_comments must be an int")
    else if !isInstInt created_utc || asInt created_utc < 0 then
      .error (.valueError "created_utc must be a non-negative int (seconds)")
    else
      .ok (RedditPost.make (asStr title) body' (asInt score) (asInt num_comments)
        (asInt created_utc))

/-! ### `PostValidator.is_valid_date` and the date-to-epoch conversion -/

/-- Numeric value of an ASCII digit character. -/
def digitVal (c : Char) : Int :=
  (c.toNat : Int) - 48

/-- Gregorian leap-year rule (as implemented by Python's `datetime`). -/
def isLeapYear (y : Int) : Bool :=
  y % 4 = 0 && (y % 100 ≠ 0 || y % 400 = 0)

/-- Number of days in month `m` of year `y`. -/
def daysInMonth (y m : Int) : Int :=
  if m = 2 then (if isLeapYear y then 29 else 28)
  else if m = 4 || m = 6 || m = 9 || m = 11 then 30
  else 31

/-- `PostValidator.is_valid_date`: the string must match
`^\d{4}-\d{2}-\d{2}$` and `datetime.strptime(date_str, "%Y-%m-%d")` must
succeed, i.e. the fields must form a real calendar date with year in
`1..9999` (Python's `datetime` range; a four-digit year is at most 9999). -/
def PostValidator.is_valid_date (date_str : String) : Bool :=
  match date_str.data with
  | [y1, y2, y3, y4, s1, m1, m2, s2, d1, d2] =>
    if (y1.isDigit && y2.isDigit && y3.isDigit && y4.isDigit && s1 = '-' &&
        m1.isDigit && m2.isDigit && s2 = '-' && d1.isDigit && d2.isDigit) then
      let y := 1000 * digitVal y1 + 100 * digitVal y2 + 10 * digitVal y3 + digitVal y4
      let m := 10 * digitVal m1 + digitVal m2
      let d := 10 * digitVal d1 + digitVal d2
      if 1 ≤ y ∧ 1 ≤ m ∧ m ≤ 12 ∧ 1 ≤ d ∧ d ≤ daysInMonth y m then true else false
    else false
  | _ => false

/-- Days from 1970-01-01 to year `y`, month `m`, day `d` in the proleptic
Gregorian calendar (Howard Hinnant's `days_from_civil`; all divisions are on
non-negative operands for the years `1..9999` in scope, where Lean's
truncating `Int` division agrees with the algorithm's). -/
def daysFromCivil (y m d : Int) : Int :=
  let y' := y - (if m ≤ 2 then 1 else 0)
  let era := y' / 400
  let yoe := y' - era * 400
  let doy := (153 * (m + (if 2 < m then -3 else 9)) + 2) / 5 + d - 1
  let doe := yoe * 365 + yoe / 4 - yoe / 100 + doy
  era * 146097 + doe - 719468

/-- The `(year, month, day)` fields of a string already validated by
`is_valid_date`. -/
def parseDateFields (date_str : String) : Int × Int × Int :=
  match date_str.data with
  | [y1, y2, y3, y4, _, m1, m2, _, d1, d2] =>
    (1000 * digitVal y1 + 100 * digitVal y2 + 10 * digitVal y3 + digitVal y4,
     10 * digitVal m1 + digitVal m2,
     10 * digitVal d1 + digitVal d2)
  | _ => (1970, 1, 1)

/-- `int(datetime.strptime(date_str, "%Y-%m-%d").timestamp())` evaluated under
UTC (the timezone the docstring specifies): epoch seconds of midnight at the
start of the given date. -/
def dateToTs (date_str : String) : Int :=
  let f := parseDateFields date_str
  daysFromCivil f.1 f.2.1 f.2.2 * 86400

/-! ### `PostCategorizer` -/

/-- `re.search` word-boundary test at one position: a `\b` boundary exists at
position `i` of `s` iff exactly one of the character before `i` and the
character at `i` is a word character (positions outside the string count as
non-word). -/
def boundaryAt (s : List Char) (i : Nat) : Bool :=
  let before := if i = 0 then false else
    match s.get? (i - 1) with
    | some c => isWordChar c
    | none => false
  let here := match s.get? i with
    | some c => isWordChar c
    | none => false
  before != here

/-- `re.search(r"\b" + re.escape(kw) + r"\b", text)`: the literal keyword
occurs somewhere in `text` flanked by word boundaries. -/
def wordBoundarySearch (kw : List Char) (text : List Char) : Bool :=
  (List.range (text.length + 1)).any fun i =>
    decide ((text.drop i).take kw.length = kw) &&
      boundaryAt text i && boundaryAt text (i + kw.length)

/-- The hit count of one category's keyword list against a cleaned text:
the number of keywords `kw` with `re.search(r"\b" + re.escape(kw.lower()) + r"\b",
cleaned)` (an empty keyword list scores 0, as the `if not kws` branch does). -/
def hitCount (kws : List String) (cleaned : String) : Nat :=
  (kws.filter fun kw => wordBoundarySearch (kw.data.map Char.toLower) cleaned.data).length

/-- A category table: Python `dict[str, list[str]]`, modelled as an
insertion-ordered association list whose keys are distinct. -/
structure PostCategorizer where
  categories : List (String × List String)
  deriving DecidableEq, Repr

/-- The default category table of `PostCategorizer.__init__`. -/
def default_categories : List (String × List String) :=
  [("question", ["how", "what", "why", "help", "question"]),
   ("news", ["breaking", "announcement", "news"]),
   ("discussion", ["discussion", "debate", "opinion"]),
   ("meme", ["meme", "funny", "lol"]),
   ("advice", ["advice", "recommend", "should i"]),
   ("other", [])]

/-- Python's `max(items, key=lambda kv: kv[1])` on a non-empty list `x :: rest`:
a left fold that replaces the current best only on a strictly greater key, so
the first maximal element wins. -/
def maxByHits (x : String × Nat) (rest : List (String × Nat)) : String × Nat :=
  rest.foldl (fun best y => if best.2 < y.2 then y else best) x

/-- `PostCategorizer.categorize(post)`: hit counts per category in table
order, then `best_cat = max(hits.items(), key=...)`; return `"other"` when
`hits[best_cat] == 0`, else `best_cat`.  `none` models the `ValueError`
that `max` raises on an empty table. -/
def PostCategorizer.categorize (c : PostCategorizer) (p : RedditPost) : Option String :=
  let cleaned := (p.clean_text).1
  let hits := c.categories.map fun ck => (ck.1, hitCount ck.2 cleaned)
  match hits with
  | [] => none
  | x :: rest =>
    let best_cat := (maxByHits x rest).1
    if (hits.lookup best_cat).getD 0 = 0 then some "other" else some best_cat

/-- Python `dict` assignment `d[k] = v`: replace the value at an existing key
in place, otherwise append the new key at the end. -/
def setKey (t : List (String × List String)) (k : String) (v : List String) :
    List (String × List String) :=
  match t with
  | [] => [(k, v)]
  | (k0, v0) :: rest => if k0 = k then (k0, v) :: rest else (k0, v0) :: setKey rest k v

/-- The list comprehension `[k.lower() for k in keywords]`: evaluated left to
right, raising `AttributeError` at the first element that is not a string. -/
def lowerAll : List PyVal → Except PyErr (List String)
  | [] => .ok []
  | .str s :: rest => (lowerAll rest).map fun tl => String.mk (s.data.map Char.toLower) :: tl
  | _ :: _ => .error (.attributeError "object has no attribute lower")

/-- `PostCategorizer.add_category(name, keywords)`:
`ValueError` when `name` is falsy or not a string, `ValueError` when
`keywords` is not a list; otherwise store the lowercased keywords under
`name` (the comprehension may raise `AttributeError` first). -/
def PostCategorizer.add_category (c : PostCategorizer) (name keywords : PyVal) :
    Except PyErr PostCategorizer :=
  if !pyTruthy name || !isStr name then
    .error (.valueError "Category name must be a non-empty string")
  else
    match keywords with
    | .list xs => (lowerAll xs).map fun lowered => ⟨setKey c.categories (asStr name) lowered⟩
    | _ => .error (.valueError "Keywords must be a list of strings")

/-! ### `TrendAnalyzer` -/

/-- The engagement score with the default weights, the sort key of
`get_top_posts` (`lambda p: p.engagement_score()`). -/
def engagementKey (p : RedditPost) : Int :=
  p.engagement_score 1 2

/-- The ordering used by `sorted(posts, key=engagement_score, reverse=True)`:
`a` may come before `b` iff `b`'s key is at most `a`'s key.  A stable sort
with this relation is exactly Python's stable descending sort. -/
def engagementGE (a b : RedditPost) : Prop :=
  engagementKey b ≤ engagementKey a

instance : DecidableRel engagementGE := fun a b =>
  inferInstanceAs (Decidable (engagementKey b ≤ engagementKey a))

instance : IsTotal RedditPost engagementGE :=
  ⟨fun a b => (le_total (engagementKey b) (engagementKey a)).imp id id⟩

instance : IsTrans RedditPost engagementGE :=
  ⟨fun _ _ _ h1 h2 => le_trans h2 h1⟩

/-- `sorted(posts, key=lambda p: p.engagement_score(), reverse=True)`:
Python's Timsort is a stable sort, modelled by stable insertion sort with
the descending relation. -/
def sortByEngagementDesc (posts : List RedditPost) : List RedditPost :=
  List.insertionSort engagementGE posts

/-- `TrendAnalyzer.get_top_posts(posts, n)`: the first `n` posts of the
stable descending sort (`[:n]`). -/
def TrendAnalyzer.get_top_posts (posts : List RedditPost) (n : Nat) : List RedditPost :=
  (sortByEngagementDesc posts).take n

/-- `TrendAnalyzer.filter_posts_by_date(posts, start, end)`: validate both
date strings (raising `ValueError` otherwise), convert both bounds to epoch
seconds once, and keep the posts whose `created_utc` lies between the bounds
inclusively.  `end_ts` is `end + 1 day - 1 second`. -/
def TrendAnalyzer.filter_posts_by_date (posts : List RedditPost) (start end_ : String) :
    Except PyErr (List RedditPost) :=
  if !(PostValidator.is_valid_date start && PostValidator.is_valid_date end_) then
    .error (.valueError "start and end must be YYYY-MM-DD")
  else
    let start_ts := dateToTs start
    let end_ts := dateToTs end_ + 86400 - 1
    .ok (posts.filter fun p => decide (start_ts ≤ p.created_utc ∧ p.created_utc ≤ end_ts))

/-- The key list of the `agg` dictionary of `aggregate_semester_data`: the
categorizer's category names, with `"other"` appended by `setdefault` when it
is not already a key. -/
def aggKeys (c : PostCategorizer) : List String :=
  let ks := c.categories.map Prod.fst
  if ks.contains "other" then ks else ks ++ ["other"]

/-- `groups.setdefault(cat, []); groups[cat].append(s)`: append `s` to the
list at the first entry with key `cat`, or add a new entry at the end. -/
def addToGroups (g : List (String × List Int)) (cat : String) (s : Int) :
    List (String × List Int) :=
  match g with
  | [] => [(cat, [s])]
  | (k, v) :: rest =>
    if k = cat then (k, v ++ [s]) :: rest else (k, v) :: addToGroups rest cat s

/-- `statistics.mean` of a list of integers, as an exact rational. -/
def listMean (scores : List Int) : ℚ :=
  (scores.sum : ℚ) / (scores.length : ℚ)

/-- `TrendAnalyzer.aggregate_semester_data(all_posts)`: group the default
engagement score of every post under its category (all table categories plus
`"other"` are present from the start), then per category report
`count = len(scores)` and `avg_engagement = mean(scores)` (`0.0` for an empty
group).  `none` models the `ValueError` that `categorize` raises on an empty
category table. -/
def TrendAnalyzer.aggregate_semester_data (c : PostCategorizer)
    (all_posts : List RedditPost) : Option (List (String × Nat × ℚ)) :=
  let groups0 : List (String × List Int) := (aggKeys c).map fun k => (k, [])
  let groups? := all_posts.foldlM
    (fun g p => (c.categorize p).map fun cat => addToGroups g cat (p.engagement_score 1 2))
    groups0
  groups?.map (List.map fun kv =>
    (kv.1, kv.2.length, if kv.2.isEmpty then (0 : ℚ) else listMean kv.2))

/-- A week-over-week percentage change: an exact rational, or the
`float("inf")` sentinel. -/
inductive PctVal where
  | num (q : ℚ)
  | inf
  deriving DecidableEq, Repr

/-- One entry of the result of `compare_trends_over_time`. -/
structure TrendEntry where
  pct_changes : List PctVal
  latest : Int
  deriving DecidableEq, Repr

/-- `wk.get(cat, 0)`. -/
def weekGet (wk : List (String × Int)) (cat : String) : Int :=
  (wk.lookup cat).getD 0

/-- The loop body of `compare_trends_over_time`:
`float("inf") if curr != 0 else 0.0` when `prev == 0`, otherwise
`((curr - prev) / prev) * 100.0`. -/
def pctChange (prev curr : Int) : PctVal :=
  if prev = 0 then (if curr ≠ 0 then .inf else .num 0)
  else .num (((curr : ℚ) - (prev : ℚ)) / (prev : ℚ) * 100)

/-- `for i in range(1, len(vals)): pct_changes.append(pct(vals[i-1], vals[i]))`. -/
def pctChangesOf : List Int → List PctVal
  | [] => []
  | [_] => []
  | a :: b :: rest => pctChange a b :: pctChangesOf (b :: rest)

/-- `TrendAnalyzer.compare_trends_over_time(weekly_data)`, modelled as the
lookup function of the returned dictionary: for a category appearing in some
snapshot, the percentage changes of its weekly counts (missing weeks counting
as 0) together with the last week's count (`vals[-1]`); `none` for a category
in no snapshot, and for every category when `weekly_data` is empty. -/
def TrendAnalyzer.compare_trends_over_time (weekly_data : List (List (String × Int)))
    (cat : String) : Option TrendEntry :=
  if weekly_data.isEmpty then none
  else if weekly_data.any fun wk => (wk.lookup cat).isSome then
    let vals := weekly_data.map fun wk => weekGet wk cat
    some { pct_changes := pctChangesOf vals, latest := (vals.getLast?).getD 0 }
  else none

/-! ### Helper lemmas -/

theorem roundHalfEven_intCast (n : Int) : roundHalfEven (n : ℚ) = n := by
  show (if ((n : ℚ) - ⌊(n : ℚ)⌋) < 1/2 then _ else _) = n
  rw [Int.floor_intCast, sub_self]
  norm_num

/-- The percentage-change rule exactly as the specification words it:
`(curr − prev)/prev × 100` when `prev ≠ 0`; `+inf` when `prev = 0` and
`curr ≠ 0`; `0.0` when both are zero. -/
def pctSpec (prev curr : Int) : PctVal :=
  if prev ≠ 0 then .num (((curr : ℚ) - (prev : ℚ)) / (prev : ℚ) * 100)
  else if curr ≠ 0 then .inf else .num 0

theorem pctChange_eq_pctSpec (prev curr : Int) : pctChange prev curr = pctSpec prev curr := by
  unfold pctChange pctSpec
  by_cases h : prev = 0 <;> simp [h]

theorem pctChangesOf_length : ∀ l : List Int, l ≠ [] → (pctChangesOf l).length + 1 = l.length
  | [], h => absurd rfl h
  | [_], _ => rfl
  | a :: b :: rest, _ => by
    have ih := pctChangesOf_length (b :: rest) (by simp)
    simp only [pctChangesOf, List.length_cons] at ih ⊢
    omega

theorem pctChangesOf_get? : ∀ (l : List Int) (i : Nat), i + 1 < l.length →
    (pctChangesOf l).get? i =
      some (pctChange ((l.get? i).getD 0) ((l.get? (i + 1)).getD 0))
  | [], i, h => by simp at h
  | [_], i, h => by simp at h
  | a :: b :: rest, 0, _ => rfl
  | a :: b :: rest, i + 1, h => by
    have ih := pctChangesOf_get? (b :: rest) i (by simpa using Nat.lt_of_succ_lt_succ h)
    simpa [pctChangesOf] using ih

/-! ### C8 — engagement score -/

/-- C8: for every post, `engagement_score` with the default weights `(1, 2)`
equals `round(score + 2 × num_comments)`, which is the integer
`score + 2 × num_comments`; the sponsored variant (default comment weight 3)
uses the same combination formula
`round(score·w_upvote + num_comments·w_comment)`. -/
theorem engagement_score_formula (p : RedditPost) :
    p.engagement_score 1 2 = roundHalfEven ((p.score : ℚ) + 2 * (p.num_comments : ℚ)) ∧
    p.engagement_score 1 2 = p.score + 2 * p.num_comments ∧
    SponsoredPost.engagement_score p 1 3 = p.score + 3 * p.num_comments ∧
    ∀ w_upvote w_comment : ℚ,
      SponsoredPost.engagement_score p w_upvote w_comment =
        roundHalfEven ((p.score : ℚ) * w_upvote + (p.num_comments : ℚ) * w_comment) := by
  refine ⟨?_, ?_, ?_, fun _ _ => rfl⟩
  · unfold RedditPost.engagement_score
    ring_nf
  · unfold RedditPost.engagement_score
    have h : (p.score : ℚ) * 1 + (p.num_comments : ℚ) * 2 =
        ((p.score + 2 * p.num_comments : Int) : ℚ) := by push_cast; ring
    rw [h, roundHalfEven_intCast]
  · unfold SponsoredPost.engagement_score RedditPost.engagement_score
    have h : (p.score : ℚ) * 1 + (p.num_comments : ℚ) * 3 =
        ((p.score + 3 * p.num_comments : Int) : ℚ) := by push_cast; ring
    rw [h, roundHalfEven_intCast]

/-! ### C4 — weekly trend comparison -/

/-- C4: for every non-empty snapshot sequence and category appearing in some
snapshot (missing weeks counting as 0), `compare_trends_over_time` yields the
percentage change `(curr − prev)/prev × 100` for each consecutive pair when
`prev ≠ 0`, `+inf` when `prev = 0 ∧ curr ≠ 0`, and `0.0` when both are 0,
with the final week's count as `latest`; in particular the three snapshot
pairs from the specification yield `[0.0]`, `[+inf]` and `[-50.0]`. -/
theorem compare_trends_over_time_spec :
    (∀ (weekly_data : List (List (String × Int))) (cat : String)
      (hne : weekly_data ≠ [])
      (_ : (weekly_data.any fun wk => (wk.lookup cat).isSome) = true),
      ∃ e : TrendEntry,
        TrendAnalyzer.compare_trends_over_time weekly_data cat = some e ∧
        e.pct_changes.length + 1 = weekly_data.length ∧
        (∀ i, i + 1 < weekly_data.length →
          e.pct_changes.get? i = some (pctSpec
            (weekGet ((weekly_data.get? i).getD []) cat)
            (weekGet ((weekly_data.get? (i + 1)).getD []) cat))) ∧
        e.latest = weekGet (weekly_data.getLast hne) cat) ∧
    TrendAnalyzer.compare_trends_over_time [[("a", 0)], [("a", 0)]] "a" =
      some ⟨[.num 0], 0⟩ ∧
    TrendAnalyzer.compare_trends_over_time [[("a", 0)], [("a", 5)]] "a" =
      some ⟨[.inf], 5⟩ ∧
    TrendAnalyzer.compare_trends_over_time [[("a", 10)], [("a", 5)]] "a" =
      some ⟨[.num (-50)], 5⟩ := by
  refine ⟨?_, by decide, by decide, ?conc⟩
  case conc =>
    show _ = some (⟨[PctVal.num (-50)], 5⟩ : TrendEntry)
    have h50 : pctChange 10 5 = PctVal.num (-50) := by
      unfold pctChange
      norm_num
    simp only [TrendAnalyzer.compare_trends_over_time, TrendEntry.mk.injEq]
    norm_num [weekGet, pctChangesOf, h50]
  intro weekly_data cat hne happ
  have hempty : weekly_data.isEmpty = false := by
    simpa [List.isEmpty_iff] using hne
  have heq : TrendAnalyzer.compare_trends_over_time weekly_data cat =
      some ⟨pctChangesOf (weekly_data.map fun wk => weekGet wk cat),
        ((weekly_data.map fun wk => weekGet wk cat).getLast?).getD 0⟩ := by
    simp only [TrendAnalyzer.compare_trends_over_time, hempty, Bool.false_eq_true,
      if_false, happ, if_true]
  refine ⟨_, heq, ?_, ?_, ?_⟩
  · have hvals : (weekly_data.map fun wk => weekGet wk cat) ≠ [] := by
      simpa using hne
    have := pctChangesOf_length _ hvals
    simpa using this
  · intro i hi
    have hi' : i + 1 < (weekly_data.map fun wk => weekGet wk cat).length := by
      simpa using hi
    rw [pctChangesOf_get? _ i hi']
    have h1 : i < weekly_data.length := by omega
    have h2 : i + 1 < weekly_data.length := hi
    rw [List.get?_map, List.get?_map, List.get?_eq_get h1, List.get?_eq_get h2]
    simp [pctChange_eq_pctSpec]
  · show ((weekly_data.map fun wk => weekGet wk cat).getLast?).getD 0 = _
    rw [List.getLast?_map, List.getLast?_eq_getLast _ hne]
    rfl

theorem compare_trends_over_time_spec_witness :
    ∃ e : TrendEntry,
      TrendAnalyzer.compare_trends_over_time [[("a", 10)], [("a", 5)]] "a" = some e ∧
      e.pct_changes.length + 1 = ([[("a", 10)], [("a", 5)]] : List (List (String × Int))).length ∧
      (∀ i, i + 1 < ([[("a", 10)], [("a", 5)]] : List (List (String × Int))).length →
        e.pct_changes.get? i = some (pctSpec
          (weekGet ((([[("a", 10)], [("a", 5)]] : List (List (String × Int))).get? i).getD []) "a")
          (weekGet ((([[("a", 10)], [("a", 5)]] : List (List (String × Int))).get? (i + 1)).getD []) "a"))) ∧
      e.latest = weekGet (([[("a", 10)], [("a", 5)]] : List (List (String × Int))).getLast (by decide)) "a" :=
  compare_trends_over_time_spec.1 [[("a", 10)], [("a", 5)]] "a" (by decide) (by decide)

/-! ### C3 — date-range filtering -/

/-- C3: for well-formed `YYYY-MM-DD` bounds, `filter_posts_by_date` returns
exactly the posts whose `created_utc` lies in the inclusive window
`[start 00:00:00 UTC, end 23:59:59 UTC]` (i.e. `[dateToTs start,
dateToTs end + 86399]`); a malformed bound raises `ValueError` before any
filtering. -/
theorem filter_posts_by_date_spec (posts : List RedditPost) (start end_ : String) :
    (PostValidator.is_valid_date start = true ∧ PostValidator.is_valid_date end_ = true →
      ∃ res, TrendAnalyzer.filter_posts_by_date posts start end_ = .ok res ∧
        res = posts.filter (fun p =>
          decide (dateToTs start ≤ p.created_utc ∧ p.created_utc ≤ dateToTs end_ + 86399)) ∧
        ∀ p, p ∈ res ↔ p ∈ posts ∧
          dateToTs start ≤ p.created_utc ∧ p.created_utc ≤ dateToTs end_ + 86399) ∧
    (¬(PostValidator.is_valid_date start = true ∧ PostValidator.is_valid_date end_ = true) →
      TrendAnalyzer.filter_posts_by_date posts start end_ =
        .error (.valueError "start and end must be YYYY-MM-DD")) := by
  constructor
  · rintro ⟨h1, h2⟩
    have hwin : dateToTs end_ + 86400 - 1 = dateToTs end_ + 86399 := by omega
    have heq : TrendAnalyzer.filter_posts_by_date posts start end_ =
        .ok (posts.filter (fun p =>
          decide (dateToTs start ≤ p.created_utc ∧ p.created_utc ≤ dateToTs end_ + 86399))) := by
      simp only [TrendAnalyzer.filter_posts_by_date, h1, h2, Bool.and_self,
        Bool.not_true, Bool.false_eq_true, if_false, hwin]
    refine ⟨_, heq, rfl, ?_⟩
    intro p
    simp [List.mem_filter]
  · intro h
    have hb : (PostValidator.is_valid_date start && PostValidator.is_valid_date end_) = false := by
      rcases Bool.eq_false_or_eq_true (PostValidator.is_valid_date start) with hs | hs <;>
        rcases Bool.eq_false_or_eq_true (PostValidator.is_valid_date end_) with he | he <;>
        simp [hs, he] at h ⊢
    simp [TrendAnalyzer.filter_posts_by_date, hb]

theorem filter_posts_by_date_spec_witness :
    (∃ res, TrendAnalyzer.filter_posts_by_date
        [RedditPost.make "t" "" 0 0 86400, RedditPost.make "u" "" 0 0 300000]
        "1970-01-01" "1970-01-02" = .ok res ∧
      res = [RedditPost.make "t" "" 0 0 86400, RedditPost.make "u" "" 0 0 300000].filter
        (fun p => decide (dateToTs "1970-01-01" ≤ p.created_utc ∧
          p.created_utc ≤ dateToTs "1970-01-02" + 86399)) ∧
      ∀ p, p ∈ res ↔ p ∈ [RedditPost.make "t" "" 0 0 86400, RedditPost.make "u" "" 0 0 300000] ∧
        dateToTs "1970-01-01" ≤ p.created_utc ∧
        p.created_utc ≤ dateToTs "1970-01-02" + 86399) ∧
    TrendAnalyzer.filter_posts_by_date [] "1970-13-40" "1970-01-02" =
      .error (.valueError "start and end must be YYYY-MM-DD") :=
  ⟨(filter_posts_by_date_spec _ "1970-01-01" "1970-01-02").1 ⟨by decide, by decide⟩,
   (filter_posts_by_date_spec [] "1970-13-40" "1970-01-02").2 (by decide)⟩

/-! ### C6 — clean_text: caching and normal form -/

theorem toNat_ofNat_valid {n : Nat} (h : n.isValidChar) : (Char.ofNat n).toNat = n := by
  simp [Char.ofNat, h, Char.ofNatAux, Char.toNat, UInt32.toNat]

theorem isUpper_iff (c : Char) : c.isUpper = true ↔ 65 ≤ c.toNat ∧ c.toNat ≤ 90 := by
  simp [Char.isUpper, UInt32.le_def, BitVec.le_def, Char.toNat, UInt32.toNat]

theorem toLower_isUpper_false (c : Char) : (Char.toLower c).isUpper = false := by
  simp only [Char.toLower]
  split
  case isTrue h =>
    have hval : (c.toNat + 32).isValidChar := Or.inl (by omega)
    have hn : (Char.ofNat (c.toNat + 32)).toNat = c.toNat + 32 := toNat_ofNat_valid hval
    rw [Bool.eq_false_iff]
    intro hu
    rw [isUpper_iff, hn] at hu
    omega
  case isFalse h =>
    rw [Bool.eq_false_iff]
    intro hu
    rw [isUpper_iff] at hu
    exact h ⟨hu.1, hu.2⟩

theorem mem_collapseSpaces : ∀ (t : List Char) (b : Bool) (c : Char),
    c ∈ collapseSpaces b t → c = ' ' ∨ (c ∈ t ∧ isSpaceChar c = false)
  | [], b, c, h => by simp [collapseSpaces] at h
  | a :: rest, b, c, h => by
    by_cases ha : isSpaceChar a
    · cases b with
      | true =>
        simp only [collapseSpaces, ha, if_true] at h
        rcases mem_collapseSpaces rest true c h with h' | ⟨h1, h2⟩
        · exact Or.inl h'
        · exact Or.inr ⟨List.mem_cons_of_mem _ h1, h2⟩
      | false =>
        simp only [collapseSpaces, ha, if_true, Bool.false_eq_true, if_false] at h
        rcases List.mem_cons.mp h with h' | h'
        · exact Or.inl h'
        · rcases mem_collapseSpaces rest true c h' with h'' | ⟨h1, h2⟩
          · exact Or.inl h''
          · exact Or.inr ⟨List.mem_cons_of_mem _ h1, h2⟩
    · have ha' : isSpaceChar a = false := by simpa using ha
      simp only [collapseSpaces, ha', Bool.false_eq_true, if_false] at h
      rcases List.mem_cons.mp h with h' | h'
      · subst h'
        exact Or.inr ⟨List.mem_cons_self _ _, ha'⟩
      · rcases mem_collapseSpaces rest false c h' with h'' | ⟨h1, h2⟩
        · exact Or.inl h''
        · exact Or.inr ⟨List.mem_cons_of_mem _ h1, h2⟩

theorem head?_collapseSpaces_true : ∀ (t : List Char) (c : Char),
    (collapseSpaces true t).head? = some c → isSpaceChar c = false
  | [], c, h => by simp [collapseSpaces] at h
  | a :: rest, c, h => by
    by_cases ha : isSpaceChar a
    · simp only [collapseSpaces, ha, if_true] at h
      exact head?_collapseSpaces_true rest c h
    · have ha' : isSpaceChar a = false := by simpa using ha
      simp only [collapseSpaces, ha', Bool.false_eq_true, if_false, List.head?_cons,
        Option.some.injEq] at h
      subst h
      exact ha'

theorem chain'_collapseSpaces : ∀ (t : List Char) (b : Bool),
    (collapseSpaces b t).Chain' (fun a b => ¬(a = ' ' ∧ b = ' '))
  | [], _ => by simp [collapseSpaces]
  | a :: rest, b => by
    by_cases ha : isSpaceChar a
    · cases b with
      | true =>
        simpa only [collapseSpaces, ha, if_true] using chain'_collapseSpaces rest true
      | false =>
        simp only [collapseSpaces, ha, if_true, Bool.false_eq_true, if_false]
        rw [List.chain'_cons']
        refine ⟨?_, chain'_collapseSpaces rest true⟩
        intro y hy hcontra
        have := head?_collapseSpaces_true rest y hy
        rw [hcontra.2] at this
        simp [isSpaceChar] at this
    · have ha' : isSpaceChar a = false := by simpa using ha
      simp only [collapseSpaces, ha', Bool.false_eq_true, if_false]
      rw [List.chain'_cons']
      refine ⟨?_, chain'_collapseSpaces rest false⟩
      intro y hy hcontra
      rw [hcontra.1] at ha'
      simp [isSpaceChar] at ha'

theorem head?_dropWhile (p : Char → Bool) : ∀ (l : List Char) (c : Char),
    (l.dropWhile p).head? = some c → p c = false
  | [], c, h => by simp at h
  | a :: rest, c, h => by
    by_cases ha : p a
    · rw [List.dropWhile_cons_of_pos ha] at h
      exact head?_dropWhile p rest c h
    · have ha' : p a = false := by simpa using ha
      rw [List.dropWhile_cons_of_neg (by simp [ha'])] at h
      simp only [List.head?_cons, Option.some.injEq] at h
      subst h
      exact ha'

theorem mem_cleanChars (s : List Char) (c : Char) (h : c ∈ cleanChars s) :
    (isWordChar c = true ∨ c = ' ') ∧ c.isUpper = false := by
  have h' : c ∈ List.dropWhile isSpaceChar ((List.dropWhile isSpaceChar
      ((collapseSpaces false ((s.map Char.toLower).map substChar)).reverse)).reverse) := by
    simpa only [cleanChars, stripLeft] using h
  have h1 : c ∈ (List.dropWhile isSpaceChar
      ((collapseSpaces false ((s.map Char.toLower).map substChar)).reverse)).reverse := by
    exact (List.dropWhile_sublist _).subset h'
  have h2 : c ∈ collapseSpaces false ((s.map Char.toLower).map substChar) := by
    rw [List.mem_reverse] at h1
    have h3 := (List.dropWhile_sublist (l := (collapseSpaces false
      ((s.map Char.toLower).map substChar)).reverse) isSpaceChar).subset h1
    rwa [List.mem_reverse] at h3
  rcases mem_collapseSpaces _ _ _ h2 with hsp | ⟨hmem, hnsp⟩
  · subst hsp
    exact ⟨Or.inr rfl, by decide⟩
  · rcases List.mem_map.mp hmem with ⟨d, hd, hdc⟩
    rcases List.mem_map.mp hd with ⟨e, _, hde⟩
    by_cases hw : isWordChar d || isSpaceChar d
    · have hcd : c = d := by rw [← hdc]; simp [substChar, hw]
      subst hcd
      rcases Bool.or_eq_true_iff.mp hw with hw' | hw'
      · subst hde
        exact ⟨Or.inl hw', toLower_isUpper_false e⟩
      · rw [hw'] at hnsp; exact absurd hnsp (by simp)
    · have hcd : c = ' ' := by
        rw [← hdc]
        simp only [substChar]
        rw [if_neg (by simpa using hw)]
      rw [hcd] at hnsp
      simp [isSpaceChar] at hnsp

theorem chain'_cleanChars (s : List Char) :
    (cleanChars s).Chain' (fun a b => ¬(a = ' ' ∧ b = ' ')) := by
  show (stripLeft (stripLeft ((collapseSpaces false
    ((s.map Char.toLower).map substChar)).reverse)).reverse).Chain' _
  simp only [stripLeft]
  have h0 := chain'_collapseSpaces ((s.map Char.toLower).map substChar) false
  have himp : ∀ (l : List Char), l.Chain' (fun a b => ¬(a = ' ' ∧ b = ' ')) →
      l.reverse.Chain' (fun a b => ¬(a = ' ' ∧ b = ' ')) := by
    intro l hl
    rw [List.chain'_reverse]
    exact hl.imp fun a b h hab => h ⟨hab.2, hab.1⟩
  have h1 := himp _ h0
  have h2 := h1.suffix (List.dropWhile_suffix isSpaceChar)
  have h3 := himp _ h2
  exact h3.suffix (List.dropWhile_suffix isSpaceChar)

theorem head?_cleanChars (s : List Char) (c : Char)
    (h : (cleanChars s).head? = some c) : isSpaceChar c = false := by
  simp only [cleanChars, stripLeft] at h
  exact head?_dropWhile _ _ _ h

theorem getLast?_cleanChars (s : List Char) (c : Char)
    (h : (cleanChars s).getLast? = some c) : isSpaceChar c = false := by
  simp only [cleanChars, stripLeft] at h
  obtain ⟨t, ht⟩ := List.dropWhile_suffix (l := ((List.dropWhile isSpaceChar
      ((collapseSpaces false ((s.map Char.toLower).map substChar)).reverse)).reverse)) isSpaceChar
  have hC : ((List.dropWhile isSpaceChar
      ((collapseSpaces false ((s.map Char.toLower).map substChar)).reverse)).reverse).getLast? = some c := by
    rw [← ht, List.getLast?_append, h]
    rfl
  rw [List.getLast?_reverse] at hC
  exact head?_dropWhile _ _ _ hC

/-- C6: `clean_text()` is idempotent — the first call caches its result and
every subsequent call returns the identical string — and on a freshly
constructed post (`_cleaned_text = None`) the returned string consists only
of word characters (letters, digits, underscore) and single spaces, contains
no ASCII uppercase letter, has no two adjacent spaces, and neither starts nor
ends with whitespace. -/
theorem clean_text_idempotent_and_clean (p : RedditPost) :
    ((p.clean_text).2.clean_text).1 = (p.clean_text).1 ∧
    ((p.clean_text).2).cleaned_cache = some (p.clean_text).1 ∧
    (p.cleaned_cache = none →
      (∀ c ∈ ((p.clean_text).1).data, (isWordChar c = true ∨ c = ' ') ∧ c.isUpper = false) ∧
      ((p.clean_text).1).data.Chain' (fun a b => ¬(a = ' ' ∧ b = ' ')) ∧
      (∀ c, ((p.clean_text).1).data.head? = some c → isSpaceChar c = false) ∧
      (∀ c, ((p.clean_text).1).data.getLast? = some c → isSpaceChar c = false)) := by
  refine ⟨?_, ?_, ?_⟩
  · cases hc : p.cleaned_cache <;> simp [RedditPost.clean_text, hc]
  · cases hc : p.cleaned_cache <;> simp [RedditPost.clean_text, hc]
  · intro hc
    have hdata : ((p.clean_text).1).data = cleanChars (p.title ++ " " ++ p.body).data := by
      simp [RedditPost.clean_text, hc]
    rw [hdata]
    exact ⟨fun c hcmem => mem_cleanChars _ c hcmem, chain'_cleanChars _,
      fun c h => head?_cleanChars _ c h, fun c h => getLast?_cleanChars _ c h⟩

theorem clean_text_idempotent_and_clean_witness :
    (∀ c ∈ (((RedditPost.make "Hi!" "There  WORLD" 1 2 3).clean_text).1).data,
      (isWordChar c = true ∨ c = ' ') ∧ c.isUpper = false) ∧
    (∀ c, (((RedditPost.make "Hi!" "There  WORLD" 1 2 3).clean_text).1).data.getLast? = some c →
      isSpaceChar c = false) :=
  ⟨((clean_text_idempotent_and_clean (RedditPost.make "Hi!" "There  WORLD" 1 2 3)).2.2 rfl).1,
   ((clean_text_idempotent_and_clean (RedditPost.make "Hi!" "There  WORLD" 1 2 3)).2.2 rfl).2.2.2⟩

/-! ### C7 — top posts: stable descending sort -/

theorem filter_orderedInsert (k : Int) (a : RedditPost) (l : List RedditPost) :
    (List.orderedInsert engagementGE a l).filter (fun p => decide (engagementKey p = k)) =
      if engagementKey a = k
      then a :: l.filter (fun p => decide (engagementKey p = k))
      else l.filter (fun p => decide (engagementKey p = k)) := by
  rw [List.orderedInsert_eq_take_drop, List.filter_append]
  by_cases hk : engagementKey a = k
  · rw [if_pos hk]
    have htake : (l.takeWhile fun b => decide ¬engagementGE a b).filter
        (fun p => decide (engagementKey p = k)) = [] := by
      rw [List.filter_eq_nil]
      intro b hb
      have hbp := List.mem_takeWhile_imp hb
      simp only [decide_eq_true_eq, engagementGE, not_le] at hbp
      simp only [decide_eq_true_eq]
      omega
    rw [htake]
    have hsplit : l.filter (fun p => decide (engagementKey p = k)) =
        ((l.takeWhile fun b => decide ¬engagementGE a b) ++
          (l.dropWhile fun b => decide ¬engagementGE a b)).filter
            (fun p => decide (engagementKey p = k)) := by
      rw [List.takeWhile_append_dropWhile]
    rw [hsplit, List.filter_append, htake]
    simp [hk]
  · rw [if_neg hk]
    have hsplit : l.filter (fun p => decide (engagementKey p = k)) =
        ((l.takeWhile fun b => decide ¬engagementGE a b) ++
          (l.dropWhile fun b => decide ¬engagementGE a b)).filter
            (fun p => decide (engagementKey p = k)) := by
      rw [List.takeWhile_append_dropWhile]
    rw [hsplit, List.filter_append]
    simp [hk]

theorem filter_sortByEngagementDesc (k : Int) :
    ∀ posts : List RedditPost,
      (sortByEngagementDesc posts).filter (fun p => decide (engagementKey p = k)) =
        posts.filter (fun p => decide (engagementKey p = k))
  | [] => rfl
  | a :: l => by
    show (List.orderedInsert engagementGE a (List.insertionSort engagementGE l)).filter _ = _
    rw [filter_orderedInsert]
    rw [List.filter_cons]
    by_cases hk : engagementKey a = k
    · rw [if_pos hk, if_pos (by simp [hk])]
      exact congrArg _ (filter_sortByEngagementDesc k l)
    · rw [if_neg hk, if_neg (by simp [hk])]
      exact filter_sortByEngagementDesc k l

/-- C7: `get_top_posts(posts, n)` is the first `n` elements (all of them when
`posts` is shorter than `n`) of a stable descending sort by the default
engagement score: the sorted list is a permutation of the input, is sorted
descending, and posts of any fixed engagement score keep their original
relative order. -/
theorem get_top_posts_stable_desc (posts : List RedditPost) (n : Nat) :
    TrendAnalyzer.get_top_posts posts n = (sortByEngagementDesc posts).take n ∧
    (sortByEngagementDesc posts).Perm posts ∧
    (sortByEngagementDesc posts).Sorted (fun a b => engagementKey b ≤ engagementKey a) ∧
    (∀ k : Int, (sortByEngagementDesc posts).filter (fun p => decide (engagementKey p = k)) =
      posts.filter (fun p => decide (engagementKey p = k))) ∧
    (posts.length ≤ n → (TrendAnalyzer.get_top_posts posts n).Perm posts) := by
  refine ⟨rfl, List.perm_insertionSort _ _, List.sorted_insertionSort engagementGE posts,
    fun k => filter_sortByEngagementDesc k posts, ?_⟩
  intro hle
  have hlen : (sortByEngagementDesc posts).length = posts.length :=
    (List.perm_insertionSort _ _).length_eq
  have htake : (sortByEngagementDesc posts).take n = sortByEngagementDesc posts := by
    apply List.take_of_length_le
    omega
  show List.Perm ((sortByEngagementDesc posts).take n) posts
  rw [htake]
  exact List.perm_insertionSort _ _

theorem get_top_posts_stable_desc_witness :
    ((sortByEngagementDesc [RedditPost.make "A" "" 10 0 0, RedditPost.make "B" "" 10 0 0,
        RedditPost.make "C" "" 5 0 0]).filter (fun p => decide (engagementKey p = 10)) =
      [RedditPost.make "A" "" 10 0 0, RedditPost.make "B" "" 10 0 0,
        RedditPost.make "C" "" 5 0 0].filter (fun p => decide (engagementKey p = 10))) ∧
    (TrendAnalyzer.get_top_posts [RedditPost.make "A" "" 10 0 0, RedditPost.make "B" "" 10 0 0,
        RedditPost.make "C" "" 5 0 0] 3).Perm
      [RedditPost.make "A" "" 10 0 0, RedditPost.make "B" "" 10 0 0,
        RedditPost.make "C" "" 5 0 0] :=
  ⟨(get_top_posts_stable_desc [RedditPost.make "A" "" 10 0 0, RedditPost.make "B" "" 10 0 0,
      RedditPost.make "C" "" 5 0 0] 2).2.2.2.1 10,
   (get_top_posts_stable_desc [RedditPost.make "A" "" 10 0 0, RedditPost.make "B" "" 10 0 0,
      RedditPost.make "C" "" 5 0 0] 3).2.2.2.2 (by decide)⟩

/-! ### C1 / C10 — categorize: first strictly-highest hit count, catch-all -/

theorem maxByHits_spec : ∀ (l : List (String × Nat)) (x : String × Nat),
    x.2 ≤ (maxByHits x l).2 ∧ (∀ y ∈ l, y.2 ≤ (maxByHits x l).2) ∧
      (maxByHits x l = x ∨ ∃ i, ∃ hi : i < l.length,
        l.get ⟨i, hi⟩ = maxByHits x l ∧ x.2 < (maxByHits x l).2 ∧
        ∀ j (hj : j < l.length), j < i → (l.get ⟨j, hj⟩).2 < (maxByHits x l).2)
  | [], x => ⟨le_refl _, by simp, Or.inl rfl⟩
  | z :: t, x => by
    have hstep : maxByHits x (z :: t) = maxByHits (if x.2 < z.2 then z else x) t := rfl
    by_cases hz : x.2 < z.2
    · have ih := maxByHits_spec t z
      rw [hstep, if_pos hz]
      refine ⟨le_of_lt (lt_of_lt_of_le hz ih.1), ?_, ?_⟩
      · intro y hy
        rcases List.mem_cons.mp hy with hy' | hy'
        · subst hy'; exact ih.1
        · exact ih.2.1 y hy'
      · rcases ih.2.2 with hr | ⟨i, hi, hget, hlt, hpre⟩
        · refine Or.inr ⟨0, by simp, ?_, ?_, ?_⟩
          · simpa using hr.symm
          · rw [hr]; exact hz
          · intro j hj hj0; omega
        · refine Or.inr ⟨i + 1, by simpa using Nat.succ_lt_succ hi, by simpa using hget,
            lt_trans hz hlt, ?_⟩
          intro j hj hji
          cases j with
          | zero => simpa using lt_of_le_of_lt (le_refl z.2) hlt
          | succ j' =>
            have hj' : j' < t.length := by simpa using Nat.lt_of_succ_lt_succ hj
            have := hpre j' hj' (by omega)
            simpa using this
    · have ih := maxByHits_spec t x
      rw [hstep, if_neg hz]
      refine ⟨ih.1, ?_, ?_⟩
      · intro y hy
        rcases List.mem_cons.mp hy with hy' | hy'
        · subst hy'; exact le_trans (Nat.le_of_not_lt hz) ih.1
        · exact ih.2.1 y hy'
      · rcases ih.2.2 with hr | ⟨i, hi, hget, hlt, hpre⟩
        · exact Or.inl hr
        · refine Or.inr ⟨i + 1, by simpa using Nat.succ_lt_succ hi, by simpa using hget,
            hlt, ?_⟩
          intro j hj hji
          cases j with
          | zero => simpa using lt_of_le_of_lt (Nat.le_of_not_lt hz) hlt
          | succ j' =>
            have hj' : j' < t.length := by simpa using Nat.lt_of_succ_lt_succ hj
            have := hpre j' hj' (by omega)
            simpa using this

theorem lookup_get_of_nodup : ∀ (l : List (String × Nat)),
    (l.map Prod.fst).Nodup → ∀ (i : Nat) (hi : i < l.length),
    l.lookup (l.get ⟨i, hi⟩).1 = some (l.get ⟨i, hi⟩).2
  | [], _, i, hi => by simp at hi
  | (k, v) :: t, hnd, 0, hi => by
    simp [List.lookup]
  | (k, v) :: t, hnd, i + 1, hi => by
    have hi' : i < t.length := by simpa using Nat.lt_of_succ_lt_succ hi
    have hget : ((k, v) :: t).get ⟨i + 1, hi⟩ = t.get ⟨i, hi'⟩ := rfl
    rw [hget]
    have hk : k ≠ (t.get ⟨i, hi'⟩).1 := by
      intro he
      have hmem : (t.get ⟨i, hi'⟩).1 ∈ t.map Prod.fst :=
        List.mem_map.mpr ⟨t.get ⟨i, hi'⟩, List.get_mem t _ _, rfl⟩
      rw [← he] at hmem
      exact (List.nodup_cons.mp (by simpa using hnd)).1 hmem
    have hbeq : ((t.get ⟨i, hi'⟩).1 == k) = false := by
      simp [beq_eq_false_iff_ne]
      exact fun he => hk he.symm
    rw [List.lookup, hbeq]
    exact lookup_get_of_nodup t (List.nodup_cons.mp (by simpa using hnd)).2 i hi'


theorem pickBest_characterization (x : String × Nat) (rest : List (String × Nat))
    (hnd : ((x :: rest).map Prod.fst).Nodup) :
    ∃ i : Nat, ∃ hi : i < (x :: rest).length,
      (∀ j (hj : j < (x :: rest).length),
        ((x :: rest).get ⟨j, hj⟩).2 ≤ ((x :: rest).get ⟨i, hi⟩).2) ∧
      (∀ j (hj : j < (x :: rest).length), j < i →
        ((x :: rest).get ⟨j, hj⟩).2 < ((x :: rest).get ⟨i, hi⟩).2) ∧
      (if ((x :: rest).lookup (maxByHits x rest).1).getD 0 = 0
        then (some "other" : Option String) else some (maxByHits x rest).1) =
      some (if ((x :: rest).get ⟨i, hi⟩).2 = 0 then "other"
        else ((x :: rest).get ⟨i, hi⟩).1) := by
  have hspec := maxByHits_spec rest x
  rcases hspec.2.2 with hr | ⟨i, hi, hget, hlt, hpre⟩
  · refine ⟨0, by simp, ?_, by omega, ?_⟩
    · intro j hj
      cases j with
      | zero => exact le_refl _
      | succ j' =>
        have hj' : j' < rest.length := by simpa using Nat.lt_of_succ_lt_succ hj
        show (rest.get ⟨j', hj'⟩).2 ≤ x.2
        have h2 := hspec.2.1 _ (List.get_mem rest j' hj')
        rwa [hr] at h2
    · have hlk0 := lookup_get_of_nodup (x :: rest) hnd 0 (by simp)
      have hlk : (x :: rest).lookup x.1 = some x.2 := hlk0
      rw [hr]
      show (if ((x :: rest).lookup x.1).getD 0 = 0 then (some "other" : Option String)
        else some x.1) = some (if x.2 = 0 then "other" else x.1)
      rw [hlk]
      by_cases hx : x.2 = 0 <;> simp [hx]
  · have hi1 : i + 1 < (x :: rest).length := by simpa using Nat.succ_lt_succ hi
    refine ⟨i + 1, hi1, ?_, ?_, ?_⟩
    · intro j hj
      show ((x :: rest).get ⟨j, hj⟩).2 ≤ (rest.get ⟨i, hi⟩).2
      rw [hget]
      cases j with
      | zero => exact le_of_lt hlt
      | succ j' =>
        have hj' : j' < rest.length := by simpa using Nat.lt_of_succ_lt_succ hj
        show (rest.get ⟨j', hj'⟩).2 ≤ _
        exact hspec.2.1 _ (List.get_mem rest j' hj')
    · intro j hj hji
      show ((x :: rest).get ⟨j, hj⟩).2 < (rest.get ⟨i, hi⟩).2
      rw [hget]
      cases j with
      | zero => exact hlt
      | succ j' =>
        have hj' : j' < rest.length := by simpa using Nat.lt_of_succ_lt_succ hj
        show (rest.get ⟨j', hj'⟩).2 < _
        exact hpre j' hj' (by omega)
    · have hlk0 := lookup_get_of_nodup (x :: rest) hnd (i + 1) hi1
      have hlk : (x :: rest).lookup (rest.get ⟨i, hi⟩).1 = some (rest.get ⟨i, hi⟩).2 := hlk0
      show (if ((x :: rest).lookup (maxByHits x rest).1).getD 0 = 0
        then (some "other" : Option String) else some (maxByHits x rest).1) =
        some (if (rest.get ⟨i, hi⟩).2 = 0 then "other" else (rest.get ⟨i, hi⟩).1)
      rw [← hget, hlk]
      by_cases hx : (rest.get ⟨i, hi⟩).2 = 0 <;>
        simp only [List.get_eq_getElem] at hx <;> simp [hx]

theorem categorize_characterization (tbl : List (String × List String)) (p : RedditPost)
    (hne : tbl ≠ []) (hnd : (tbl.map Prod.fst).Nodup) :
    ∃ i : Nat, ∃ hi : i < (tbl.map fun ck => (ck.1, hitCount ck.2 (p.clean_text).1)).length,
      (∀ j (hj : j < (tbl.map fun ck => (ck.1, hitCount ck.2 (p.clean_text).1)).length),
        ((tbl.map fun ck => (ck.1, hitCount ck.2 (p.clean_text).1)).get ⟨j, hj⟩).2 ≤
        ((tbl.map fun ck => (ck.1, hitCount ck.2 (p.clean_text).1)).get ⟨i, hi⟩).2) ∧
      (∀ j (hj : j < (tbl.map fun ck => (ck.1, hitCount ck.2 (p.clean_text).1)).length),
        j < i →
        ((tbl.map fun ck => (ck.1, hitCount ck.2 (p.clean_text).1)).get ⟨j, hj⟩).2 <
        ((tbl.map fun ck => (ck.1, hitCount ck.2 (p.clean_text).1)).get ⟨i, hi⟩).2) ∧
      PostCategorizer.categorize ⟨tbl⟩ p = some
        (if ((tbl.map fun ck => (ck.1, hitCount ck.2 (p.clean_text).1)).get ⟨i, hi⟩).2 = 0
          then "other"
          else ((tbl.map fun ck => (ck.1, hitCount ck.2 (p.clean_text).1)).get ⟨i, hi⟩).1) := by
  obtain ⟨c0, ctl, rfl⟩ : ∃ c0 ctl, tbl = c0 :: ctl := by
    cases tbl with
    | nil => exact absurd rfl hne
    | cons a b => exact ⟨a, b, rfl⟩
  have hnd' : (((c0.1, hitCount c0.2 (p.clean_text).1) ::
      (ctl.map fun ck => (ck.1, hitCount ck.2 (p.clean_text).1))).map Prod.fst).Nodup := by
    have : (((c0 :: ctl).map fun ck => (ck.1, hitCount ck.2 (p.clean_text).1)).map Prod.fst) =
        (c0 :: ctl).map Prod.fst := by
      rw [List.map_map]
      rfl
    simpa [this] using hnd
  obtain ⟨i, hi, hmax, hpre, heq⟩ := pickBest_characterization
    (c0.1, hitCount c0.2 (p.clean_text).1)
    (ctl.map fun ck => (ck.1, hitCount ck.2 (p.clean_text).1)) hnd'
  exact ⟨i, hi, hmax, hpre, heq⟩

/-- C1: for every post and every category table (a Python dict: non-empty here
since `max` over an empty table raises, and with distinct keys), `categorize`
returns the category at the first position whose keyword-hit count over the
post's cleaned text is the table's maximum, whenever that count is positive —
so a strictly-highest count wins and non-zero ties go to the earliest
insertion position — and returns the catch-all category `"other"` when every
hit count is 0. -/
theorem categorize_first_highest_or_catch_all (tbl : List (String × List String))
    (p : RedditPost) (hne : tbl ≠ []) (hnd : (tbl.map Prod.fst).Nodup) :
    ((∀ e ∈ tbl.map fun ck => (ck.1, hitCount ck.2 (p.clean_text).1), e.2 = 0) →
      PostCategorizer.categorize ⟨tbl⟩ p = some "other") ∧
    (∀ i (hi : i < (tbl.map fun ck => (ck.1, hitCount ck.2 (p.clean_text).1)).length),
      0 < ((tbl.map fun ck => (ck.1, hitCount ck.2 (p.clean_text).1)).get ⟨i, hi⟩).2 →
      (∀ j (hj : j < (tbl.map fun ck => (ck.1, hitCount ck.2 (p.clean_text).1)).length),
        ((tbl.map fun ck => (ck.1, hitCount ck.2 (p.clean_text).1)).get ⟨j, hj⟩).2 ≤
        ((tbl.map fun ck => (ck.1, hitCount ck.2 (p.clean_text).1)).get ⟨i, hi⟩).2) →
      (∀ j (hj : j < (tbl.map fun ck => (ck.1, hitCount ck.2 (p.clean_text).1)).length),
        j < i →
        ((tbl.map fun ck => (ck.1, hitCount ck.2 (p.clean_text).1)).get ⟨j, hj⟩).2 <
        ((tbl.map fun ck => (ck.1, hitCount ck.2 (p.clean_text).1)).get ⟨i, hi⟩).2) →
      PostCategorizer.categorize ⟨tbl⟩ p = some
        ((tbl.map fun ck => (ck.1, hitCount ck.2 (p.clean_text).1)).get ⟨i, hi⟩).1) := by
  obtain ⟨i0, hi0, hmax0, hpre0, hres0⟩ := categorize_characterization tbl p hne hnd
  constructor
  · intro h0
    have hz : ((tbl.map fun ck => (ck.1, hitCount ck.2 (p.clean_text).1)).get ⟨i0, hi0⟩).2 = 0 :=
      h0 _ (List.get_mem _ _ _)
    rw [hres0, if_pos hz]
  · intro i hi hpos hmax hpre
    have hii0 : i = i0 := by
      rcases lt_trichotomy i i0 with hlt | heq | hgt
      · have h1 := hpre0 i hi hlt
        have h2 := hmax i0 hi0
        omega
      · exact heq
      · have h1 := hpre i0 hi0 hgt
        have h2 := hmax0 i hi
        omega
    subst hii0
    rw [hres0, if_neg (by omega)]

theorem categorize_first_highest_or_catch_all_witness :
    PostCategorizer.categorize ⟨default_categories⟩
      (RedditPost.make "How to learn X?" "" 50 20 0) = some
      ((default_categories.map fun ck => (ck.1, hitCount ck.2
        ((RedditPost.make "How to learn X?" "" 50 20 0).clean_text).1)).get ⟨0, by decide⟩).1 :=
  (categorize_first_highest_or_catch_all default_categories
    (RedditPost.make "How to learn X?" "" 50 20 0) (by decide) (by decide)).2
    0 (by decide) (by decide) (by decide) (by decide)

/-- C10: when every category's hit count is 0, `categorize` returns the
literal string `"other"`, whatever the table's own categories are called —
in particular for a table whose empty-keyword category has a different name
and that has no `"other"` key at all. -/
theorem categorize_no_match_literal_other (tbl : List (String × List String))
    (p : RedditPost) (hne : tbl ≠ []) (hnd : (tbl.map Prod.fst).Nodup)
    (h0 : ∀ ck ∈ tbl, hitCount ck.2 (p.clean_text).1 = 0) :
    PostCategorizer.categorize ⟨tbl⟩ p = some "other" := by
  obtain ⟨i0, hi0, hmax0, hpre0, hres0⟩ := categorize_characterization tbl p hne hnd
  have hmem : (tbl.map fun ck => (ck.1, hitCount ck.2 (p.clean_text).1)).get ⟨i0, hi0⟩ ∈
      tbl.map fun ck => (ck.1, hitCount ck.2 (p.clean_text).1) := List.get_mem _ _ _
  rcases List.mem_map.mp hmem with ⟨ck, hck, hmap⟩
  have hz : ((tbl.map fun ck => (ck.1, hitCount ck.2 (p.clean_text).1)).get ⟨i0, hi0⟩).2 = 0 := by
    rw [← hmap]
    exact h0 ck hck
  rw [hres0, if_pos hz]

theorem categorize_no_match_literal_other_witness :
    PostCategorizer.categorize ⟨[("misc", []), ("news", ["breaking"])]⟩
      (RedditPost.make "hello everyone" "" 1 0 0) = some "other" :=
  categorize_no_match_literal_other [("misc", []), ("news", ["breaking"])]
    (RedditPost.make "hello everyone" "" 1 0 0) (by decide) (by decide) (by decide)

/-! ### C2 — post construction validation (corrected) -/

theorem guard_title (t : PyVal) :
    (!pyTruthy t || !isStr t) = true ↔ ¬ ∃ s, t = .str s ∧ s ≠ "" := by
  cases t <;> simp [pyTruthy, isStr]

theorem guard_int (v : PyVal) :
    (!isInstInt v || isBool v) = true ↔ ¬ ∃ n, v = .int n := by
  cases v <;> simp [isInstInt, isBool]

theorem guard_cu (v : PyVal) :
    (!isInstInt v || decide (asInt v < 0)) = true ↔
      ¬ ((∃ n, v = .int n ∧ 0 ≤ n) ∨ ∃ b, v = .bool b) := by
  cases v <;> simp [isInstInt, asInt] <;> try omega

theorem init_error_iff_guards (title body score num_comments created_utc : PyVal) :
    ((∃ e, RedditPost.init title body score num_comments created_utc = .error e) ↔
      ((!pyTruthy title || !isStr title) = true ∨
       (!isInstInt score || isBool score) = true ∨
       (!isInstInt num_comments || isBool num_comments) = true ∨
       (!isInstInt created_utc || decide (asInt created_utc < 0)) = true)) ∧
    (∀ e, RedditPost.init title body score num_comments created_utc = .error e →
      ∃ msg, e = PyErr.valueError msg) := by
  unfold RedditPost.init
  split_ifs with h1 h2 h3 h4 <;> simp_all

/-- C2 (amended): `RedditPost.__init__` raises a validation error (always a
`ValueError`) if and only if: `title` is not a non-empty string, `score` is
not an integer or is a boolean, `num_comments` is not an integer or is a
boolean, or `created_utc` is neither a non-negative integer nor a boolean.
Unlike the original claim, `num_comments` may be negative and booleans are
accepted for `created_utc` (Python's `bool` passes `isinstance(·, int)` and
`True`/`False` are not negative). -/
theorem init_error_iff_amended (title body score num_comments created_utc : PyVal) :
    ((∃ e, RedditPost.init title body score num_comments created_utc = .error e) ↔
      ((¬ ∃ s, title = .str s ∧ s ≠ "") ∨
       (¬ ∃ n, score = .int n) ∨
       (¬ ∃ n, num_comments = .int n) ∨
       (¬ ((∃ n, created_utc = .int n ∧ 0 ≤ n) ∨ ∃ b, created_utc = .bool b)))) ∧
    (∀ e, RedditPost.init title body score num_comments created_utc = .error e →
      ∃ msg, e = PyErr.valueError msg) := by
  have h := init_error_iff_guards title body score num_comments created_utc
  refine ⟨?_, h.2⟩
  rw [h.1, guard_title, guard_int, guard_int, guard_cu]

/-- C2 counterexample: the claim requires construction with a negative
`num_comments` to fail and booleans to be rejected wherever an integer is
required, but `__init__` has no non-negativity check on `num_comments` and
`created_utc = True` passes its `isinstance(created_utc, int)` test — both
constructions succeed. -/
theorem init_accepts_negative_num_comments :
    RedditPost.init (.str "t") .pyNone (.int 0) (.int (-5)) (.int 0) =
      .ok (RedditPost.make "t" "" 0 (-5) 0) ∧
    RedditPost.init (.str "t") .pyNone (.int 0) (.int 0) (.bool true) =
      .ok (RedditPost.make "t" "" 0 0 1) :=
  ⟨rfl, rfl⟩

theorem init_error_iff_amended_witness :
    ∃ e, RedditPost.init (.str "") .pyNone (.int 0) (.int 0) (.int 0) = .error e :=
  (init_error_iff_amended (.str "") .pyNone (.int 0) (.int 0) (.int 0)).1.mpr
    (Or.inl (by simp))

/-! ### C9 — add_category (corrected) -/

theorem lowerAll_map_str (xs : List String) :
    lowerAll (xs.map PyVal.str) = .ok (xs.map fun kw => String.mk (kw.data.map Char.toLower)) := by
  induction xs with
  | nil => rfl
  | cons a t ih => simp [lowerAll, List.map_cons, ih, Except.map]

theorem lowerAll_error_attr : ∀ (ys : List PyVal) (e : PyErr), lowerAll ys = .error e →
    ∃ m, e = .attributeError m
  | [], e, h => by simp [lowerAll] at h
  | .str s :: t, e, h => by
    simp only [lowerAll] at h
    cases ht : lowerAll t with
    | ok v => rw [ht] at h; simp [Except.map] at h
    | error e' =>
      rw [ht] at h
      simp only [Except.map] at h
      injection h with he
      rcases lowerAll_error_attr t e' ht with ⟨m, hm⟩
      exact ⟨m, by rw [← he]; exact hm⟩
  | .int n :: t, e, h => by
    simp only [lowerAll] at h
    cases h
    exact ⟨_, rfl⟩
  | .bool b :: t, e, h => by
    simp only [lowerAll] at h
    cases h
    exact ⟨_, rfl⟩
  | .pyNone :: t, e, h => by
    simp only [lowerAll] at h
    cases h
    exact ⟨_, rfl⟩
  | .list xs :: t, e, h => by
    simp only [lowerAll] at h
    cases h
    exact ⟨_, rfl⟩

theorem lowerAll_nonstr : ∀ ys : List PyVal, (∃ y ∈ ys, ∀ t, y ≠ .str t) →
    ∃ m, lowerAll ys = .error (.attributeError m)
  | [], h => by simp at h
  | .str s :: t, h => by
    rcases h with ⟨y, hy, hne⟩
    rcases List.mem_cons.mp hy with rfl | hy'
    · exact absurd rfl (hne s)
    · rcases lowerAll_nonstr t ⟨y, hy', hne⟩ with ⟨m, hm⟩
      exact ⟨m, by simp [lowerAll, hm, Except.map]⟩
  | .int n :: t, _ => ⟨_, rfl⟩
  | .bool b :: t, _ => ⟨_, rfl⟩
  | .pyNone :: t, _ => ⟨_, rfl⟩
  | .list xs :: t, _ => ⟨_, rfl⟩

theorem setKey_lookup_self : ∀ (t : List (String × List String)) (k : String) (v : List String),
    List.lookup k (setKey t k v) = some v
  | [], k, v => by simp [setKey, List.lookup]
  | (k0, v0) :: rest, k, v => by
    by_cases hk : k0 = k
    · simp [setKey, if_pos hk, List.lookup, hk]
    · have hb : (k == k0) = false := by
        simp only [beq_eq_false_iff_ne]
        exact fun he => hk he.symm
      simp only [setKey, if_neg hk, List.lookup, hb]
      exact setKey_lookup_self rest k v

theorem setKey_lookup_other : ∀ (t : List (String × List String)) (k : String)
    (v : List String) (k2 : String), k2 ≠ k → List.lookup k2 (setKey t k v) = List.lookup k2 t
  | [], k, v, k2, hne => by
    have hb : (k2 == k) = false := by simpa using hne
    simp [setKey, List.lookup, hb]
  | (k0, v0) :: rest, k, v, k2, hne => by
    by_cases hk : k0 = k
    · have hb : (k2 == k0) = false := by
        simp only [beq_eq_false_iff_ne]
        intro he
        exact hne (he.trans hk)
      simp [setKey, if_pos hk, List.lookup, hb]
    · by_cases h2 : k2 = k0
      · have hb : (k2 == k0) = true := by simpa using h2
        simp [setKey, if_neg hk, List.lookup, hb]
      · have hb : (k2 == k0) = false := by simpa using h2
        simp only [setKey, if_neg hk, List.lookup, hb]
        exact setKey_lookup_other rest k v k2 hne

theorem setKey_keys : ∀ (t : List (String × List String)) (k : String) (v : List String),
    (setKey t k v).map Prod.fst =
      if k ∈ t.map Prod.fst then t.map Prod.fst else t.map Prod.fst ++ [k]
  | [], k, v => by simp [setKey]
  | (k0, v0) :: rest, k, v => by
    by_cases hk : k0 = k
    · simp [setKey, if_pos hk, hk]
    · simp only [setKey, if_neg hk, List.map_cons]
      rw [setKey_keys rest k v]
      have hne : ¬ (k = k0) := fun he => hk he.symm
      by_cases hmem : k ∈ rest.map Prod.fst
      · rw [if_pos hmem, if_pos (by simp [hmem])]
      · rw [if_neg hmem, if_neg (by simp [hmem, hne])]
        simp
theorem add_category_nonstring_keyword_attribute_error :
    PostCategorizer.add_category ⟨default_categories⟩ (.str "x") (.list [.int 1]) =
      .error (.attributeError "object has no attribute lower") ∧
    ∀ msg, PyErr.attributeError "object has no attribute lower" ≠ PyErr.valueError msg :=
  ⟨rfl, fun _ h => PyErr.noConfusion h⟩

/-- C9 (amended): `add_category(name, keywords)` raises a validation error
(`ValueError`) iff `name` is not a non-empty string or `keywords` is not a
list; a list containing a non-string element instead raises
`AttributeError` during lowercasing; on success the keywords are stored
lowercased under `name`, replacing any existing entry with the same name in
place (other entries and their order untouched; a new name is appended). -/
theorem add_category_spec_amended :
    (∀ (c : PostCategorizer) (name keywords : PyVal),
      ((∃ msg, PostCategorizer.add_category c name keywords = .error (.valueError msg)) ↔
        ((¬ ∃ s, name = .str s ∧ s ≠ "") ∨ (¬ ∃ xs, keywords = .list xs))) ∧
      (∀ (s : String) (xs : List String), name = .str s → s ≠ "" →
        keywords = .list (xs.map PyVal.str) →
        PostCategorizer.add_category c name keywords =
          .ok ⟨setKey c.categories s (xs.map fun kw => String.mk (kw.data.map Char.toLower))⟩) ∧
      (∀ (s : String) (ys : List PyVal), name = .str s → s ≠ "" → keywords = .list ys →
        (∃ y ∈ ys, ∀ t, y ≠ .str t) →
        ∃ m, PostCategorizer.add_category c name keywords = .error (.attributeError m))) ∧
    (∀ t k v, List.lookup k (setKey t k v) = some v) ∧
    (∀ t k v k2, k2 ≠ k → List.lookup k2 (setKey t k v) = List.lookup k2 t) ∧
    (∀ t k v, (setKey t k v).map Prod.fst =
      if k ∈ t.map Prod.fst then t.map Prod.fst else t.map Prod.fst ++ [k]) := by
  refine ⟨?_, setKey_lookup_self, setKey_lookup_other, setKey_keys⟩
  intro c name keywords
  refine ⟨?_, ?_, ?_⟩
  · by_cases hname : (!pyTruthy name || !isStr name) = true
    · constructor
      · intro _
        left
        cases name <;> simp [pyTruthy, isStr] at hname ⊢
        exact hname
      · intro _
        exact ⟨"Category name must be a non-empty string",
          by simp [PostCategorizer.add_category, hname]⟩
    · have hstr : ∃ s, name = .str s ∧ s ≠ "" := by
        cases name <;> simp [pyTruthy, isStr] at hname ⊢
        exact hname
      constructor
      · intro ⟨msg, hmsg⟩
        cases keywords with
        | list xs =>
          simp only [PostCategorizer.add_category, hname, Bool.false_eq_true, if_false] at hmsg
          right
          exfalso
          cases hl : lowerAll xs with
          | ok v => rw [hl] at hmsg; simp [Except.map] at hmsg
          | error e =>
            rw [hl] at hmsg
            simp only [Except.map] at hmsg
            injection hmsg with he
            rcases lowerAll_error_attr xs e hl with ⟨m, hm⟩
            rw [he] at hm
            exact PyErr.noConfusion hm
        | int n => right; simp
        | bool b => right; simp
        | str s => right; simp
        | pyNone => right; simp
      · intro h
        rcases h with h | h
        · exact absurd hstr h
        · cases keywords with
          | list xs => exact absurd ⟨xs, rfl⟩ h
          | int n => exact ⟨"Keywords must be a list of strings",
              by simp [PostCategorizer.add_category, hname]⟩
          | bool b => exact ⟨"Keywords must be a list of strings",
              by simp [PostCategorizer.add_category, hname]⟩
          | str s => exact ⟨"Keywords must be a list of strings",
              by simp [PostCategorizer.add_category, hname]⟩
          | pyNone => exact ⟨"Keywords must be a list of strings",
              by simp [PostCategorizer.add_category, hname]⟩
  · rintro s xs rfl hs rfl
    have hname : (!pyTruthy (.str s) || !isStr (.str s)) = false := by
      simp [pyTruthy, isStr, hs]
    simp only [PostCategorizer.add_category, hname, Bool.false_eq_true, if_false]
    rw [lowerAll_map_str]
    simp [Except.map, asStr]
  · rintro s ys rfl hs rfl hne
    have hname : (!pyTruthy (.str s) || !isStr (.str s)) = false := by
      simp [pyTruthy, isStr, hs]
    rcases lowerAll_nonstr ys hne with ⟨m, hm⟩
    refine ⟨m, ?_⟩
    simp [PostCategorizer.add_category, hname, hm, Except.map]

theorem add_category_spec_amended_witness :
    PostCategorizer.add_category ⟨default_categories⟩ (.str "tech") (.list [.str "GPU"]) =
      .ok ⟨setKey default_categories "tech"
        (["GPU"].map fun kw => String.mk (kw.data.map Char.toLower))⟩ :=
  (add_category_spec_amended.1 ⟨default_categories⟩ (.str "tech")
    (.list [.str "GPU"])).2.1 "tech" ["GPU"] rfl (by decide) rfl

/-! ### C5 — semester aggregation -/

theorem maxByHits_mem : ∀ (rest : List (String × Nat)) (x : String × Nat),
    maxByHits x rest = x ∨ maxByHits x rest ∈ rest
  | [], x => Or.inl rfl
  | z :: t, x => by
    have hstep : maxByHits x (z :: t) = maxByHits (if x.2 < z.2 then z else x) t := rfl
    rw [hstep]
    by_cases hz : x.2 < z.2
    · rw [if_pos hz]
      rcases maxByHits_mem t z with h | h
      · rw [h]
        exact Or.inr (List.mem_cons_self z t)
      · exact Or.inr (List.mem_cons_of_mem z h)
    · rw [if_neg hz]
      rcases maxByHits_mem t x with h | h
      · exact Or.inl h
      · exact Or.inr (List.mem_cons_of_mem z h)

theorem other_mem_aggKeys (c : PostCategorizer) : "other" ∈ aggKeys c := by
  unfold aggKeys
  by_cases h : (c.categories.map Prod.fst).contains "other"
  · rw [if_pos h]
    simpa [List.elem_iff] using h
  · rw [if_neg h]
    exact List.mem_append_right _ (by simp)

theorem key_mem_aggKeys (c : PostCategorizer) (k : String)
    (hk : k ∈ c.categories.map Prod.fst) : k ∈ aggKeys c := by
  unfold aggKeys
  by_cases h : (c.categories.map Prod.fst).contains "other"
  · rw [if_pos h]
    exact hk
  · rw [if_neg h]
    exact List.mem_append_left _ hk

theorem categorize_isSome_mem (c : PostCategorizer) (p : RedditPost)
    (hne : c.categories ≠ []) :
    ∃ cat, c.categorize p = some cat ∧ cat ∈ aggKeys c := by
  obtain ⟨tbl⟩ := c
  obtain ⟨c0, ctl, rfl⟩ : ∃ c0 ctl, tbl = c0 :: ctl := by
    cases tbl with
    | nil => exact absurd rfl hne
    | cons a b => exact ⟨a, b, rfl⟩
  by_cases h : ((((c0.1, hitCount c0.2 (p.clean_text).1) ::
      (ctl.map fun ck => (ck.1, hitCount ck.2 (p.clean_text).1))).lookup
        (maxByHits (c0.1, hitCount c0.2 (p.clean_text).1)
          (ctl.map fun ck => (ck.1, hitCount ck.2 (p.clean_text).1))).1).getD 0) = 0
  · refine ⟨"other", ?_, other_mem_aggKeys _⟩
    show (if (((c0.1, hitCount c0.2 (p.clean_text).1) ::
        (ctl.map fun ck => (ck.1, hitCount ck.2 (p.clean_text).1))).lookup
          (maxByHits (c0.1, hitCount c0.2 (p.clean_text).1)
            (ctl.map fun ck => (ck.1, hitCount ck.2 (p.clean_text).1))).1).getD 0 = 0
      then some "other"
      else some (maxByHits (c0.1, hitCount c0.2 (p.clean_text).1)
        (ctl.map fun ck => (ck.1, hitCount ck.2 (p.clean_text).1))).1) = some "other"
    rw [if_pos h]
  · have hmem : (maxByHits (c0.1, hitCount c0.2 (p.clean_text).1)
        (ctl.map fun ck => (ck.1, hitCount ck.2 (p.clean_text).1))).1 ∈
        ((c0 :: ctl).map Prod.fst) := by
      rcases maxByHits_mem (ctl.map fun ck => (ck.1, hitCount ck.2 (p.clean_text).1))
          (c0.1, hitCount c0.2 (p.clean_text).1) with hr | hr
      · rw [hr]
        exact List.mem_cons_self _ _
      · rcases List.mem_map.mp hr with ⟨ck, hck, hmap⟩
        rw [← hmap]
        exact List.mem_cons_of_mem _ (List.mem_map.mpr ⟨ck, hck, rfl⟩)
    refine ⟨_, ?_, key_mem_aggKeys _ _ hmem⟩
    show (if (((c0.1, hitCount c0.2 (p.clean_text).1) ::
        (ctl.map fun ck => (ck.1, hitCount ck.2 (p.clean_text).1))).lookup
          (maxByHits (c0.1, hitCount c0.2 (p.clean_text).1)
            (ctl.map fun ck => (ck.1, hitCount ck.2 (p.clean_text).1))).1).getD 0 = 0
      then some "other"
      else some (maxByHits (c0.1, hitCount c0.2 (p.clean_text).1)
        (ctl.map fun ck => (ck.1, hitCount ck.2 (p.clean_text).1))).1) = some _
    rw [if_neg h]

theorem addToGroups_keys : ∀ (g : List (String × List Int)) (cat : String) (s : Int),
    cat ∈ g.map Prod.fst → (addToGroups g cat s).map Prod.fst = g.map Prod.fst
  | [], cat, s, h => by simp at h
  | (k, v) :: rest, cat, s, h => by
    by_cases hk : k = cat
    · simp [addToGroups, if_pos hk]
    · simp only [addToGroups, if_neg hk, List.map_cons]
      have hmem : cat ∈ rest.map Prod.fst := by
        have h2 : cat = k ∨ ∃ x, (cat, x) ∈ rest := by simpa using h
        rcases h2 with h' | ⟨x, hx⟩
        · exact absurd h'.symm hk
        · exact List.mem_map.mpr ⟨(cat, x), hx, rfl⟩
      rw [addToGroups_keys rest cat s hmem]

theorem addToGroups_lookup_self : ∀ (g : List (String × List Int)) (cat : String) (s : Int),
    List.lookup cat (addToGroups g cat s) = some ((List.lookup cat g).getD [] ++ [s])
  | [], cat, s => by simp [addToGroups, List.lookup]
  | (k, v) :: rest, cat, s => by
    by_cases hk : k = cat
    · subst hk
      simp [addToGroups, List.lookup]
    · have hb : (cat == k) = false := by
        simp only [beq_eq_false_iff_ne]
        exact fun he => hk he.symm
      simp only [addToGroups, if_neg hk, List.lookup, hb]
      exact addToGroups_lookup_self rest cat s

theorem addToGroups_lookup_other : ∀ (g : List (String × List Int)) (cat : String) (s : Int)
    (cat2 : String), cat2 ≠ cat →
    List.lookup cat2 (addToGroups g cat s) = List.lookup cat2 g
  | [], cat, s, cat2, hne => by
    have hb : (cat2 == cat) = false := by simpa using hne
    simp [addToGroups, List.lookup, hb]
  | (k, v) :: rest, cat, s, cat2, hne => by
    by_cases hk : k = cat
    · have hb : (cat2 == k) = false := by
        simp only [beq_eq_false_iff_ne]
        intro he
        exact hne (he.trans hk)
      simp [addToGroups, if_pos hk, List.lookup, hb]
    · by_cases h2 : cat2 = k
      · have hb : (cat2 == k) = true := by simpa using h2
        simp [addToGroups, if_neg hk, List.lookup, hb]
      · have hb : (cat2 == k) = false := by simpa using h2
        simp only [addToGroups, if_neg hk, List.lookup, hb]
        exact addToGroups_lookup_other rest cat s cat2 hne

theorem lookup_const_nil_map : ∀ (keys : List String) (cat : String),
    List.lookup cat (keys.map fun k => (k, ([] : List Int))) =
      if cat ∈ keys then some [] else none
  | [], cat => by simp
  | k :: t, cat => by
    by_cases hk : cat = k
    · subst hk
      simp [List.lookup]
    · have hb : (cat == k) = false := by simpa using hk
      simp only [List.map_cons, List.lookup, hb]
      rw [lookup_const_nil_map t cat]
      by_cases hmem : cat ∈ t
      · rw [if_pos hmem, if_pos (by simp [hmem])]
      · rw [if_neg hmem, if_neg (by simp [hmem, hk])]

theorem lookup_map_snd (f : List Int → Nat × ℚ) :
    ∀ (l : List (String × List Int)) (cat : String),
      List.lookup cat (l.map fun kv => (kv.1, f kv.2)) = (List.lookup cat l).map f
  | [], cat => by simp
  | (k, v) :: rest, cat => by
    by_cases hk : cat = k
    · subst hk
      simp [List.lookup]
    · have hb : (cat == k) = false := by simpa using hk
      simp only [List.map_cons, List.lookup, hb]
      exact lookup_map_snd f rest cat

theorem lookup_some_of_mem_keys : ∀ (g : List (String × List Int)) (cat : String),
    cat ∈ g.map Prod.fst → ∃ v, List.lookup cat g = some v
  | [], _, h => by simp at h
  | (k, v) :: rest, cat, h => by
    by_cases hk : cat = k
    · subst hk
      exact ⟨v, by simp [List.lookup]⟩
    · have hb : (cat == k) = false := by simpa using hk
      simp only [List.lookup, hb]
      apply lookup_some_of_mem_keys rest cat
      have h2 : cat = k ∨ ∃ x, (cat, x) ∈ rest := by simpa using h
      rcases h2 with h' | ⟨x, hx⟩
      · exact absurd h' hk
      · exact List.mem_map.mpr ⟨(cat, x), hx, rfl⟩

theorem foldlM_groups_spec (c : PostCategorizer) (hne : c.categories ≠ []) :
    ∀ (posts : List RedditPost) (g : List (String × List Int)),
      (∀ cat, cat ∈ aggKeys c → cat ∈ g.map Prod.fst) →
      ∃ res, posts.foldlM (fun g p => (c.categorize p).map
          (fun cat => addToGroups g cat (p.engagement_score 1 2))) g = some res ∧
        res.map Prod.fst = g.map Prod.fst ∧
        ∀ cat, List.lookup cat res = (List.lookup cat g).map
          (fun l => l ++ ((posts.filter (fun p => decide (c.categorize p = some cat))).map
            (fun p => p.engagement_score 1 2)))
  | [], g, hg => by
    refine ⟨g, rfl, rfl, ?_⟩
    intro cat
    cases h : List.lookup cat g <;> simp
  | p :: rest, g, hg => by
    obtain ⟨cat0, hcat0, hmem0⟩ := categorize_isSome_mem c p hne
    have hkeys0 : (addToGroups g cat0 (p.engagement_score 1 2)).map Prod.fst =
        g.map Prod.fst := addToGroups_keys g cat0 _ (hg cat0 hmem0)
    obtain ⟨res, hres, hkeys, hlookup⟩ := foldlM_groups_spec c hne rest
      (addToGroups g cat0 (p.engagement_score 1 2))
      (fun cat hcat => by rw [hkeys0]; exact hg cat hcat)
    refine ⟨res, ?_, by rw [hkeys, hkeys0], ?_⟩
    · rw [List.foldlM_cons, hcat0]
      simpa using hres
    · intro cat
      rw [hlookup cat]
      by_cases hc : cat = cat0
      · subst hc
        rw [addToGroups_lookup_self]
        obtain ⟨l, hl⟩ := lookup_some_of_mem_keys g cat (hg cat hmem0)
        rw [hl]
        have hfil : (p :: rest).filter (fun q => decide (c.categorize q = some cat)) =
            p :: rest.filter (fun q => decide (c.categorize q = some cat)) := by
          simp [List.filter_cons, hcat0]
        rw [hfil]
        simp [List.append_assoc]
      · rw [addToGroups_lookup_other g cat0 _ cat hc]
        have hfil : (p :: rest).filter (fun q => decide (c.categorize q = some cat)) =
            rest.filter (fun q => decide (c.categorize q = some cat)) := by
          simp only [List.filter_cons]
          rw [if_neg]
          simp only [decide_eq_true_eq, hcat0]
          exact fun he => hc (Option.some.inj he).symm
        rw [hfil]

/-- C5: for every post list (and a non-empty category table, since an empty
table makes `categorize` raise), `aggregate_semester_data` has an entry for
exactly the categories known to the categorizer plus the catch-all
`"other"`, in table order; each category's `count` is the number of posts
classified into it and `avg_engagement` is the arithmetic mean of that
group's default-weight engagement scores, with `0.0` for an empty group —
so for an empty post list every category reports `count = 0` and
`avg_engagement = 0.0`. -/
theorem aggregate_semester_data_spec (c : PostCategorizer) (posts : List RedditPost)
    (hne : c.categories ≠ []) :
    ∃ res, TrendAnalyzer.aggregate_semester_data c posts = some res ∧
      res.map Prod.fst = aggKeys c ∧
      ∀ cat ∈ aggKeys c, List.lookup cat res = some
        ((posts.filter fun p => decide (c.categorize p = some cat)).length,
         if (posts.filter fun p => decide (c.categorize p = some cat)).length = 0 then (0 : ℚ)
         else listMean ((posts.filter fun p => decide (c.categorize p = some cat)).map
           fun p => p.engagement_score 1 2)) := by
  obtain ⟨gres, hg, hkeys, hlookup⟩ := foldlM_groups_spec c hne posts
    ((aggKeys c).map fun k => (k, ([] : List Int)))
    (fun cat hcat => by simpa using hcat)
  refine ⟨gres.map (fun kv => (kv.1, kv.2.length,
      if kv.2.isEmpty then (0 : ℚ) else listMean kv.2)), ?_, ?_, ?_⟩
  · simp only [TrendAnalyzer.aggregate_semester_data, hg]
    rfl
  · have h1 : (Prod.fst ∘ fun kv : String × List Int =>
        (kv.1, kv.2.length, if kv.2.isEmpty then (0 : ℚ) else listMean kv.2)) = Prod.fst := rfl
    have h2 : (Prod.fst ∘ fun k : String => (k, ([] : List Int))) = id := rfl
    rw [List.map_map, h1, hkeys, List.map_map, h2, List.map_id]
  · intro cat hcat
    rw [lookup_map_snd (fun v => (v.length, if v.isEmpty then (0 : ℚ) else listMean v)) gres cat]
    rw [hlookup cat, lookup_const_nil_map (aggKeys c) cat, if_pos hcat]
    by_cases hfil : (posts.filter fun p => decide (c.categorize p = some cat)) = []
    · simp [hfil, Option.map]
    · have hlen0 : (posts.filter fun p => decide (c.categorize p = some cat)).length ≠ 0 := by
        simpa [List.length_eq_zero] using hfil
      have hemp : ((posts.filter fun p => decide (c.categorize p = some cat)).map
          fun p => p.engagement_score 1 2).isEmpty = false := by
        simp [List.isEmpty_iff, hfil]
      simp [Option.map, hemp, hlen0]

theorem aggregate_semester_data_spec_witness :
    ∃ res, TrendAnalyzer.aggregate_semester_data ⟨default_categories⟩ [] = some res ∧
      res.map Prod.fst = aggKeys ⟨default_categories⟩ ∧
      ∀ cat ∈ aggKeys ⟨default_categories⟩, List.lookup cat res = some
        ((([] : List RedditPost).filter fun p =>
            decide (PostCategorizer.categorize ⟨default_categories⟩ p = some cat)).length,
         if (([] : List RedditPost).filter fun p =>
            decide (PostCategorizer.categorize ⟨default_categories⟩ p = some cat)).length = 0
         then (0 : ℚ)
         else listMean ((([] : List RedditPost).filter fun p =>
            decide (PostCategorizer.categorize ⟨default_categories⟩ p = some cat)).map
           fun p => p.engagement_score 1 2)) :=
  aggregate_semester_data_spec ⟨default_categories⟩ [] (by decide)
